import Mathlib

/-!
Verification development for the discord-games-tracker repository.

The Python source is shallowly embedded: pure functions become Lean
functions, dict/list state is made explicit, machine-level details
(Discord transport, logging) are dropped.  Python `int` is `Int`,
`datetime` instants are modelled as integer seconds, calendar dates as
proleptic-Gregorian ordinals (as in Python's `date.toordinal`), and
`str` values handled by the code are modelled as `String` or `List Char`.

Sources embedded here:
  src/core/models.py   (Result)
  src/core/dates.py    (DatesConfig, GameDates.date_to_num)
  src/core/user.py     (User, User.add_result)
  src/core/runtime.py  (_longest_all_time_streak, parse_result, the
                        streak recomputation in catchup,
                        _collect_scores_for_numbers,
                        send_last_n_month_calendars ASCII branch)
  src/examples/wordle/game.py (LINE_PATTERN line matcher,
                        _resolve_member_from_token, WordleGame.parse_message)
-/

/-- A Python score value `Union[int, str]` (src/core/models.py: `score`).
Numeric scores are wins; strings (in practice only `"X"`) are losses. -/
inductive Score where
  | int (n : Int)
  | str (s : String)
deriving DecidableEq

/-- A Python `datetime`: an aware instant carries its UTC seconds, a
naive one carries local wall-clock seconds (src/core/dates.py treats
naive timestamps as already local). -/
inductive Timestamp where
  | aware (utcSeconds : Int)
  | naive (wallSeconds : Int)
deriving DecidableEq

/-- src/core/models.py `Result`. `meta` is the open string-keyed mapping
(only integer values, e.g. `{"total": 6}`, occur in the source). -/
structure Result where
  number : Int
  score : Score
  timestamp : Timestamp
  meta : List (String × Int)
deriving DecidableEq

/-! ## Calendar dates (proleptic Gregorian, Python `datetime.date`) -/

/-- Gregorian leap-year rule (Python `calendar.isleap`). -/
def isLeap (y : Int) : Bool := y % 4 == 0 && (y % 100 != 0 || y % 400 == 0)

/-- Days in month `m` of year `y` (months are 1..12). -/
def daysInMonth (y m : Int) : Int :=
  if m = 2 then (if isLeap y then 29 else 28)
  else if m = 4 ∨ m = 6 ∨ m = 9 ∨ m = 11 then 30
  else 31

/-- Days in all years before year `y` (ordinal of Dec 31 of year `y-1`). -/
def daysBeforeYear (y : Int) : Int :=
  365 * (y - 1) + (y - 1) / 4 - (y - 1) / 100 + (y - 1) / 400

/-- Days in year `y` before month `m`. -/
def daysBeforeMonth (y m : Int) : Int :=
  ((List.range (m - 1).toNat).map (fun i => daysInMonth y ((i : Int) + 1))).sum

/-- `date(y, m, d).toordinal()`: day 1 is 0001-01-01. -/
def toOrdinal (y m d : Int) : Int := daysBeforeYear y + daysBeforeMonth y m + d

/-! ## src/core/dates.py -/

/-- src/core/dates.py `DatesConfig`. `epoch_date` is kept as an ordinal. -/
structure DatesConfig where
  date_format : String := "%Y-%m-%d"
  min_date : String := "2024-06-19"
  epoch_date : Int := toOrdinal 2021 6 19
  base_number : Int := 0
deriving DecidableEq

/-- src/core/dates.py `GameDates._to_local_date`.  `localOff` is the
process's local UTC offset in seconds, `nowUtc` the current instant;
`none` means "now", an aware timestamp is converted to the local zone,
a naive one is taken as already local.  A calendar date is the floor of
local seconds divided by 86400 (`/` on `Int` is Euclidean division,
which is floor division for the positive divisor). -/
def _to_local_date (localOff nowUtc : Int) : Option Timestamp → Int
  | none => (nowUtc + localOff) / 86400
  | some (.aware u) => (u + localOff) / 86400
  | some (.naive w) => w / 86400

/-- src/core/dates.py `GameDates.date_to_num`:
`base_number + max(0, localDate - epoch_date)`. -/
def date_to_num (cfg : DatesConfig) (localOff nowUtc : Int) (ts : Option Timestamp) : Int :=
  cfg.base_number + max 0 (_to_local_date localOff nowUtc ts - cfg.epoch_date)

/-! ## src/core/user.py -/

/-- The author attributes `User` reads (id, name, display_name). -/
structure Author where
  id : Int
  name : String
  display_name : String
deriving DecidableEq

/-- src/core/user.py `User` (the never-read `streaks` list is omitted). -/
structure User where
  author : Author
  results : List Result := []
  played_nums : List Int := []
  last_played : Option Int := none
  cur_streak : Nat := 0
  total_games : Nat := 0
deriving DecidableEq

/-- Sort order of `self.results.sort(key=lambda x: x.number)`.  Python's
stable sort is modelled by stable insertion sort on this relation. -/
def resultLe (a b : Result) : Prop := a.number ≤ b.number

instance : DecidableRel resultLe := fun a b => Int.decLe a.number b.number

/-- src/core/user.py `User.add_result`, with `today_num` passed in for the
`await date_to_num()` call.  Rejects future numbers, silently ignores
duplicate numbers, otherwise appends (keeping the timeline sorted),
updates the streak for a result from today, and bumps the counters.
Python's `if not self.last_played` is falsy for both `None` and `0`. -/
def add_result (today : Int) (u : User) (r : Result) : User :=
  if r.number > today then u
  else if r.number ∈ u.played_nums then u
  else
    { u with
      results := List.insertionSort resultLe (u.results ++ [r]),
      cur_streak :=
        if r.number = today then
          match r.score with
          | .int _ => u.cur_streak + 1
          | .str _ => 0
        else u.cur_streak,
      total_games := u.total_games + 1,
      played_nums := u.played_nums ++ [r.number],
      last_played :=
        match u.last_played with
        | none => some r.number
        | some v => if v = 0 ∨ r.number > v then some r.number else some v }

/-- Puzzle numbers of a player's timeline, in timeline order. -/
def timelineNumbers (u : User) : List Int := u.results.map (fun r => r.number)

/-! ## Claims C4, C5, C3 -/

/-- C4: for every valid numbering config and fixed timezone,
`date_to_num` is monotonic non-decreasing as the input instant
increases (separately for aware instants, naive instants, and the
"now" reading), and any instant whose local date is at or before
`epoch_date` maps to exactly `base_number`. -/
theorem C4_date_to_num_monotone_clamp (cfg : DatesConfig) (localOff nowUtc : Int) :
    (∀ u₁ u₂ : Int, u₁ ≤ u₂ →
      date_to_num cfg localOff nowUtc (some (.aware u₁)) ≤
        date_to_num cfg localOff nowUtc (some (.aware u₂))) ∧
    (∀ w₁ w₂ : Int, w₁ ≤ w₂ →
      date_to_num cfg localOff nowUtc (some (.naive w₁)) ≤
        date_to_num cfg localOff nowUtc (some (.naive w₂))) ∧
    (∀ ts : Option Timestamp, _to_local_date localOff nowUtc ts ≤ cfg.epoch_date →
      date_to_num cfg localOff nowUtc ts = cfg.base_number) := by
  refine ⟨?_, ?_, ?_⟩
  · intro u₁ u₂ h
    have hd : (u₁ + localOff) / 86400 ≤ (u₂ + localOff) / 86400 :=
      Int.ediv_le_ediv (by norm_num) (by omega)
    simp only [date_to_num, _to_local_date]
    omega
  · intro w₁ w₂ h
    have hd : w₁ / 86400 ≤ w₂ / 86400 :=
      Int.ediv_le_ediv (by norm_num) h
    simp only [date_to_num, _to_local_date]
    omega
  · intro ts h
    simp only [date_to_num]
    omega

/-- Closed instantiation of `C4_date_to_num_monotone_clamp`. -/
theorem C4_date_to_num_monotone_clamp_witness :
    date_to_num {} 0 0 (some (.aware 0)) ≤ date_to_num {} 0 0 (some (.aware 100000)) ∧
    date_to_num {} 0 0 (some (.aware 0)) = 0 := by
  refine ⟨(C4_date_to_num_monotone_clamp {} 0 0).1 0 100000 (by norm_num), ?_⟩
  exact (C4_date_to_num_monotone_clamp {} 0 0).2.2 (some (.aware 0)) (by decide)

/-- C5: a result whose puzzle number strictly exceeds today's number is
rejected by `add_result` and the whole player state — timeline,
`total_games`, `cur_streak`, `last_played` — is unchanged; the result is
never stored. -/
theorem C5_add_result_rejects_future (today : Int) (u : User) (r : Result)
    (h : r.number > today) : add_result today u r = u := by
  simp [add_result, h]

/-- Closed instantiation of `C5_add_result_rejects_future`:
rejecting a result numbered one greater than today leaves the state intact. -/
theorem C5_add_result_rejects_future_witness :
    add_result 14 { author := ⟨1, "a", "a"⟩ }
      ⟨15, .int 3, .naive 0, []⟩ = { author := ⟨1, "a", "a"⟩ } :=
  C5_add_result_rejects_future 14 { author := ⟨1, "a", "a"⟩ }
    ⟨15, .int 3, .naive 0, []⟩ (by decide)

/-- C3: ingestion is idempotent per (player, puzzle number).  First, a
second `add_result` with the same result is always a no-op on the state
produced by the first call.  Second, in any state whose `played_nums`
agrees with the timeline (the invariant the store maintains), a result
whose number is already present in the timeline leaves the whole state
— timeline length, `total_games`, `cur_streak`, `last_played` —
unchanged. -/
theorem C3_add_result_idempotent (today : Int) (u : User) (r : Result) :
    add_result today (add_result today u r) r = add_result today u r ∧
    ((∀ n : Int, n ∈ u.played_nums ↔ n ∈ timelineNumbers u) →
      r.number ∈ timelineNumbers u →
      add_result today u r = u) := by
  constructor
  · by_cases hf : r.number > today
    · simp [add_result, hf]
    · by_cases hd : r.number ∈ u.played_nums
      · simp [add_result, hf, hd]
      · have hmem : r.number ∈ (add_result today u r).played_nums := by
          simp [add_result, hf, hd]
        conv_lhs => rw [add_result]
        simp [hf, hmem]
  · intro hsync hmem
    have h2 : r.number ∈ u.played_nums := (hsync r.number).mpr hmem
    by_cases hf : r.number > today
    · simp [add_result, hf]
    · simp [add_result, hf, h2]

/-- Closed instantiation of `C3_add_result_idempotent`. -/
theorem C3_add_result_idempotent_witness :
    add_result 10
        (add_result 10 { author := ⟨1, "a", "a"⟩ } ⟨7, .int 4, .naive 0, []⟩)
        ⟨7, .int 4, .naive 0, []⟩ =
      add_result 10 { author := ⟨1, "a", "a"⟩ } ⟨7, .int 4, .naive 0, []⟩ ∧
    add_result 10
        { author := ⟨1, "a", "a"⟩, results := [⟨7, .int 4, .naive 0, []⟩],
          played_nums := [7], last_played := some 7, cur_streak := 0,
          total_games := 1 }
        ⟨7, .int 4, .naive 0, []⟩ =
      { author := ⟨1, "a", "a"⟩, results := [⟨7, .int 4, .naive 0, []⟩],
        played_nums := [7], last_played := some 7, cur_streak := 0,
        total_games := 1 } := by
  refine ⟨(C3_add_result_idempotent 10 { author := ⟨1, "a", "a"⟩ }
    ⟨7, .int 4, .naive 0, []⟩).1, ?_⟩
  exact (C3_add_result_idempotent 10 _ ⟨7, .int 4, .naive 0, []⟩).2
    (by intro n; simp [timelineNumbers]) (by decide)

/-! ## Claim C1: streak recomputation in catchup (src/core/runtime.py 205-237) -/

/-- src/core/runtime.py `_is_win_default`: any numeric score is a win. -/
def is_win_default (r : Result) : Bool :=
  match r.score with
  | .int _ => true
  | .str _ => false

/-- The backward scan loop of the catchup recomputation
(src/core/runtime.py 226-235), over the reversed timeline.  NOTE: when a
result's number equals `today` the code executes `check_num -= 1` before
`continue` — the decrement is part of the skip. -/
def streak_scan_code (today : Int) : List Result → Int → Nat → Nat
  | [], _, streak => streak
  | r :: rest, check, streak =>
    if r.number = today then streak_scan_code today rest (check - 1) streak
    else if r.number = check ∧ is_win_default r = true then
      streak_scan_code today rest (check - 1) (streak + 1)
    else streak

/-- The full recomputation performed per user after catchup
(src/core/runtime.py 211-237): seed from the most recent result, then
run the backward scan over `reversed(user.results)`. -/
def catchup_recompute_streak (today : Int) (results : List Result) : Nat :=
  match results.getLast? with
  | none => 0
  | some last =>
    if last.number = today ∧ is_win_default last = true then
      streak_scan_code today results.reverse today 1
    else
      streak_scan_code today results.reverse (today - 1) 0

/-- The spec's backward-scan loop: a result whose number equals `today`
is skipped *without any other effect* (no decrement). -/
def streak_scan_spec (today : Int) : List Result → Int → Nat → Nat
  | [], _, streak => streak
  | r :: rest, check, streak =>
    if r.number = today then streak_scan_spec today rest check streak
    else if r.number = check ∧ is_win_default r = true then
      streak_scan_spec today rest (check - 1) (streak + 1)
    else streak

/-- The spec's recomputation algorithm, per its own words: start at
`checkNumber = today()`; if the most recent result's number equals
`checkNumber` and is a win, count it and decrement `checkNumber`, else
just decrement without counting; then walk the timeline in reverse
chronological order with the pure-skip loop. -/
def recompute_streak_spec (today : Int) (results : List Result) : Nat :=
  match results.getLast? with
  | none => 0
  | some last =>
    if last.number = today ∧ is_win_default last = true then
      streak_scan_spec today results.reverse (today - 1) 1
    else
      streak_scan_spec today results.reverse (today - 1) 0

/-- A timeline with wins at 12 and 13 and a loss recorded for today=14:
distinct, strictly ascending puzzle numbers. -/
def c1Timeline : List Result :=
  [⟨12, .int 3, .naive 0, []⟩, ⟨13, .int 4, .naive 0, []⟩,
   ⟨14, .str "X", .naive 0, []⟩]

/-- C1 counterexample: on a timeline with distinct puzzle numbers
{12 win, 13 win, 14 loss} and today() = 14, the code's recomputation
returns 0 while the spec's backward-scan algorithm returns 2 — the loop
in the code decrements `check_num` when it meets today's result, so a
loss recorded for today breaks the streak twice over. -/
theorem C1_counterexample :
    List.Pairwise (fun a b : Result => a.number < b.number) c1Timeline ∧
    catchup_recompute_streak 14 c1Timeline = 0 ∧
    recompute_streak_spec 14 c1Timeline = 2 ∧
    catchup_recompute_streak 14 c1Timeline ≠ recompute_streak_spec 14 c1Timeline := by
  refine ⟨?_, by decide, by decide, by decide⟩
  decide

/-- The two scan loops agree whenever no scanned result carries today's
number. -/
theorem streak_scan_eq_of_no_today (today : Int) :
    ∀ (xs : List Result) (check : Int) (streak : Nat),
      (∀ r ∈ xs, r.number ≠ today) →
      streak_scan_code today xs check streak = streak_scan_spec today xs check streak := by
  intro xs
  induction xs with
  | nil => intro check streak _; rfl
  | cons r rest ih =>
    intro check streak h
    have hr : r.number ≠ today := h r (by simp)
    have hrest : ∀ x ∈ rest, x.number ≠ today := fun x hx => h x (by simp [hx])
    simp only [streak_scan_code, streak_scan_spec, if_neg hr]
    by_cases hc : r.number = check ∧ is_win_default r = true
    · simp only [if_pos hc]; exact ih _ _ hrest
    · simp only [if_neg hc]

/-- C1 amended: on every timeline of distinct, chronologically sorted
puzzle numbers whose most recent result is not a loss recorded for
today() itself, the catchup recomputation equals the spec's
backward-scan algorithm; and the two spec examples hold as stated:
all-win numbers {10,11,12,14} with today()=14 give 1, and
{10,11,12,13} with today()=14 give 4. -/
theorem C1_recompute_streak_amended :
    (∀ (today : Int) (results : List Result),
      List.Pairwise (fun a b : Result => a.number < b.number) results →
      (∀ l, results.getLast? = some l → l.number = today → is_win_default l = true) →
      catchup_recompute_streak today results = recompute_streak_spec today results) ∧
    catchup_recompute_streak 14
      [⟨10, .int 3, .naive 0, []⟩, ⟨11, .int 3, .naive 0, []⟩,
       ⟨12, .int 3, .naive 0, []⟩, ⟨14, .int 3, .naive 0, []⟩] = 1 ∧
    catchup_recompute_streak 14
      [⟨10, .int 3, .naive 0, []⟩, ⟨11, .int 3, .naive 0, []⟩,
       ⟨12, .int 3, .naive 0, []⟩, ⟨13, .int 3, .naive 0, []⟩] = 4 := by
  refine ⟨?_, by decide, by decide⟩
  intro today results hpw hnl
  rcases hne : results.getLast? with _ | l
  · simp [catchup_recompute_streak, recompute_streak_spec, hne]
  · have hres : results ≠ [] := by
      intro h; rw [h] at hne; simp at hne
    have hsplit : results.dropLast ++ [results.getLast hres] = results :=
      List.dropLast_append_getLast hres
    have hl : results.getLast hres = l := by
      have := List.getLast?_eq_getLast results hres
      rw [hne] at this; exact (Option.some_injective _ this).symm
    rw [hl] at hsplit
    have hrev : results.reverse = l :: results.dropLast.reverse := by
      conv_lhs => rw [← hsplit]
      simp
    have hlt : ∀ a ∈ results.dropLast, a.number < l.number := by
      have := (List.pairwise_append.mp (hsplit ▸ hpw)).2.2
      intro a ha
      exact this a ha l (by simp)
    simp only [catchup_recompute_streak, recompute_streak_spec, hne]
    by_cases hwin : l.number = today ∧ is_win_default l = true
    · -- most recent result is today's and a win
      have hrest : ∀ r ∈ results.dropLast.reverse, r.number ≠ today := by
        intro r hr
        have := hlt r (List.mem_reverse.mp hr)
        omega
      rw [if_pos hwin, if_pos hwin, hrev]
      simp only [streak_scan_code, streak_scan_spec, if_pos hwin.1]
      exact streak_scan_eq_of_no_today today _ _ _ hrest
    · -- most recent result is not (today ∧ win); by hypothesis it is not
      -- a today-numbered loss either, so its number differs from today
      have hnt : l.number ≠ today := by
        intro h
        exact hwin ⟨h, hnl l hne h⟩
      rw [if_neg hwin, if_neg hwin, hrev]
      by_cases hord : l.number < today
      · have hrest : ∀ r ∈ l :: results.dropLast.reverse, r.number ≠ today := by
          intro r hr
          rcases List.mem_cons.mp hr with h | h
          · rw [h]; exact hnt
          · have := hlt r (List.mem_reverse.mp h)
            omega
        exact streak_scan_eq_of_no_today today _ _ _ hrest
      · -- l.number > today: both scans stop at the first element
        have hgt : today < l.number := by omega
        have hne2 : ¬(l.number = today - 1 ∧ is_win_default l = true) := by
          rintro ⟨h, -⟩; omega
        simp only [streak_scan_code, streak_scan_spec, if_neg hnt, if_neg hne2]

/-- Closed instantiation of `C1_recompute_streak_amended` at the second
spec example. -/
theorem C1_recompute_streak_amended_witness :
    catchup_recompute_streak 14
      [⟨10, .int 3, .naive 0, []⟩, ⟨11, .int 3, .naive 0, []⟩,
       ⟨12, .int 3, .naive 0, []⟩, ⟨13, .int 3, .naive 0, []⟩] =
    recompute_streak_spec 14
      [⟨10, .int 3, .naive 0, []⟩, ⟨11, .int 3, .naive 0, []⟩,
       ⟨12, .int 3, .naive 0, []⟩, ⟨13, .int 3, .naive 0, []⟩] :=
  C1_recompute_streak_amended.1 14 _ (by decide)
    (by intro l hl hn; simp at hl; rw [← hl] at hn; simp at hn)

/-! ## Claim C6: `_longest_all_time_streak` (src/core/runtime.py 46-81) -/

/-- The win set of src/core/runtime.py 65:
`{int(getattr(r, "number")) for r in results if win_fn(r)}`, as a list
(only membership and an iteration bound are ever used). -/
def winNumbers (results : List Result) (winFn : Result → Bool) : List Int :=
  (results.filter winFn).map (fun r => r.number)

/-- The forward walk of src/core/runtime.py 74-80 (`while (cur+1) in wins`),
made structurally recursive on a fuel that the caller sets to the size of
the win list — an upper bound for any run of distinct members. -/
def runLen (wins : List Int) : Int → Nat → Nat
  | _, 0 => 0
  | n, fuel + 1 => if n ∈ wins then runLen wins (n + 1) fuel + 1 else 0

/-- src/core/runtime.py `_longest_all_time_streak`: longest run of
consecutive integers in the win set; for every number whose predecessor
is absent, walk forward counting consecutive presence and track the
maximum.  The win predicate defaults to "any numeric score". -/
def _longest_all_time_streak (results : List Result)
    (winFn : Result → Bool := is_win_default) : Nat :=
  if results.isEmpty then 0
  else
    let wins := winNumbers results winFn
    if wins.isEmpty then 0
    else
      (wins.filter (fun n => decide ((n - 1) ∉ wins))).foldr
        (fun n acc => max (runLen wins n wins.length) acc) 0

/-- Each value folded into the running maximum bounds the result below. -/
theorem le_foldr_max (f : Int → Nat) (l : List Int) (a : Int) (ha : a ∈ l) :
    f a ≤ l.foldr (fun n acc => max (f n) acc) 0 := by
  induction l with
  | nil => cases ha
  | cons b rest ih =>
    rcases List.mem_cons.mp ha with h | h
    · subst h; exact le_max_left _ _
    · exact le_trans (ih h) (le_max_right _ _)

/-- The running maximum is zero or attained by a list element. -/
theorem foldr_max_eq_zero_or_mem (f : Int → Nat) (l : List Int) :
    l.foldr (fun n acc => max (f n) acc) 0 = 0 ∨
    ∃ a ∈ l, l.foldr (fun n acc => max (f n) acc) 0 = f a := by
  induction l with
  | nil => exact Or.inl rfl
  | cons b rest ih =>
    simp only [List.foldr_cons]
    rcases le_or_lt (f b) (rest.foldr (fun n acc => max (f n) acc) 0) with h | h
    · rw [max_eq_right h]
      rcases ih with h0 | ⟨a, ha, heq⟩
      · exact Or.inl h0
      · exact Or.inr ⟨a, List.mem_cons_of_mem b ha, heq⟩
    · rw [max_eq_left (le_of_lt h)]
      exact Or.inr ⟨b, List.mem_cons_self b rest, rfl⟩

/-- A duplicate-free list contained in another is no longer than it. -/
theorem nodup_subset_length {l₁ l₂ : List Int} (h₁ : l₁.Nodup) (h₂ : l₁ ⊆ l₂) :
    l₁.length ≤ l₂.length := by
  calc l₁.length = l₁.toFinset.card := (List.toFinset_card_of_nodup h₁).symm
    _ ≤ l₂.toFinset.card := Finset.card_le_card (fun x hx => by
        rw [List.mem_toFinset] at hx ⊢; exact h₂ hx)
    _ ≤ l₂.length := List.toFinset_card_le l₂

/-- A run of `k` consecutive members of `wins` has `k ≤ wins.length`. -/
theorem run_le_length (wins : List Int) (n : Int) (k : Nat)
    (h : ∀ i : Nat, i < k → n + (i : Int) ∈ wins) : k ≤ wins.length := by
  have hlen : ((List.range k).map (fun i : Nat => n + (i : Int))).length ≤ wins.length := by
    apply nodup_subset_length
    · refine List.Nodup.map ?_ (List.nodup_range k)
      intro i j hij
      simpa using hij
    · intro x hx
      rcases List.mem_map.mp hx with ⟨i, hi, rfl⟩
      exact h i (List.mem_range.mp hi)
  simpa using hlen

/-- Soundness of the fuelled walk: every counted offset is a member. -/
theorem runLen_sound (wins : List Int) :
    ∀ (fuel : Nat) (n : Int) (i : Nat), i < runLen wins n fuel →
      n + (i : Int) ∈ wins := by
  intro fuel
  induction fuel with
  | zero => intro n i h; simp [runLen] at h
  | succ fuel ih =>
    intro n i h
    rw [runLen] at h
    by_cases hn : n ∈ wins
    · rw [if_pos hn] at h
      cases i with
      | zero => simpa using hn
      | succ j =>
        have hj := ih (n + 1) j (by omega)
        have heq : n + ((j + 1 : Nat) : Int) = n + 1 + (j : Int) := by push_cast; ring
        rw [heq]
        exact hj
    · rw [if_neg hn] at h; omega

/-- Completeness of the fuelled walk: with enough fuel it counts at
least any actual run. -/
theorem runLen_complete (wins : List Int) :
    ∀ (fuel k : Nat) (n : Int), (∀ i : Nat, i < k → n + (i : Int) ∈ wins) →
      k ≤ fuel → k ≤ runLen wins n fuel := by
  intro fuel
  induction fuel with
  | zero => intro k n _ h; omega
  | succ fuel ih =>
    intro k n hrun hle
    cases k with
    | zero => omega
    | succ j =>
      have hn : n ∈ wins := by simpa using hrun 0 (by omega)
      rw [runLen, if_pos hn]
      have hrec : ∀ i : Nat, i < j → n + 1 + (i : Int) ∈ wins := by
        intro i hi
        have := hrun (i + 1) (by omega)
        have heq : n + ((i : Nat) + 1 : Nat) = n + 1 + (i : Int) := by push_cast; ring
        rwa [heq] at this
      have := ih j (n + 1) hrec (by omega)
      omega

/-- Distinct win numbers strictly below `n` (a termination measure for
walking a run back to its start). -/
def countBelow (wins : List Int) (n : Int) : Nat :=
  (wins.dedup.filter (fun m => decide (m < n))).length

/-- Stepping one to the left across a member strictly decreases the
number of distinct members below. -/
theorem countBelow_pred_lt (wins : List Int) (n : Int) (hmem : (n - 1) ∈ wins) :
    countBelow wins (n - 1) < countBelow wins n := by
  have hsub : ((n - 1) :: wins.dedup.filter (fun m => decide (m < n - 1))).length ≤
      (wins.dedup.filter (fun m => decide (m < n))).length := by
    apply nodup_subset_length
    · refine List.Nodup.cons ?_ ((wins.nodup_dedup).filter _)
      intro hin
      have := (List.mem_filter.mp hin).2
      simp at this
    · intro x hx
      rcases List.mem_cons.mp hx with h | h
      · subst h
        exact List.mem_filter.mpr ⟨List.mem_dedup.mpr hmem, by simp⟩
      · have := List.mem_filter.mp h
        refine List.mem_filter.mpr ⟨this.1, ?_⟩
        have := this.2
        simp at this ⊢
        omega
  simpa [countBelow] using hsub

/-- Every nonempty run of consecutive members extends leftwards to a run
start: a member whose predecessor is absent and from which the whole
original run is still covered. -/
theorem run_extends_to_start (wins : List Int) :
    ∀ (j : Nat) (n : Int) (k : Nat), 1 ≤ k →
      (∀ i : Nat, i < k → n + (i : Int) ∈ wins) →
      countBelow wins n ≤ j →
      ∃ s : Int, s ≤ n ∧ (s - 1) ∉ wins ∧
        ∀ m : Int, s ≤ m → m < n + (k : Int) → m ∈ wins := by
  intro j
  induction j with
  | zero =>
    intro n k hk hrun hcb
    by_cases hp : (n - 1) ∈ wins
    · exact absurd hcb (by have := countBelow_pred_lt wins n hp; omega)
    · refine ⟨n, le_refl n, hp, ?_⟩
      intro m hm1 hm2
      have h0 : (0 : Int) ≤ m - n := by omega
      have := hrun (m - n).toNat (by omega)
      have heq : n + (((m - n).toNat : Nat) : Int) = m := by
        rw [Int.toNat_of_nonneg h0]; ring
      rwa [heq] at this
  | succ j ih =>
    intro n k hk hrun hcb
    by_cases hp : (n - 1) ∈ wins
    · have hrun' : ∀ i : Nat, i < k + 1 → (n - 1) + (i : Int) ∈ wins := by
        intro i hi
        cases i with
        | zero => simpa using hp
        | succ i' =>
          have := hrun i' (by omega)
          have heq : (n - 1) + ((i' + 1 : Nat) : Int) = n + (i' : Int) := by
            push_cast; ring
          rwa [heq]
      have hcb' : countBelow wins (n - 1) ≤ j := by
        have := countBelow_pred_lt wins n hp
        omega
      rcases ih (n - 1) (k + 1) (by omega) hrun' hcb' with ⟨s, hs1, hs2, hs3⟩
      refine ⟨s, by omega, hs2, ?_⟩
      intro m hm1 hm2
      refine hs3 m hm1 ?_
      push_cast
      omega
    · refine ⟨n, le_refl n, hp, ?_⟩
      intro m hm1 hm2
      have h0 : (0 : Int) ≤ m - n := by omega
      have := hrun (m - n).toNat (by omega)
      have heq : n + (((m - n).toNat : Nat) : Int) = m := by
        rw [Int.toNat_of_nonneg h0]; ring
      rwa [heq] at this

/-- Timeline whose default-predicate win set is {5,6,7,10,11}. -/
def c6Results : List Result :=
  [⟨5, .int 2, .naive 0, []⟩, ⟨6, .int 3, .naive 0, []⟩,
   ⟨7, .int 1, .naive 0, []⟩, ⟨10, .int 5, .naive 0, []⟩,
   ⟨11, .int 6, .naive 0, []⟩]

/-- C6: `_longest_all_time_streak` returns exactly the length of the
longest run of consecutive integers inside the win set: some run of the
returned length exists in the win set, no run is longer, the result is 0
for an empty win set, and over win-set {5,6,7,10,11} (with the default
"any numeric score" predicate) it returns 3. -/
theorem C6_longest_all_time_streak_correct (results : List Result) (winFn : Result → Bool) :
    (∃ n : Int, ∀ i : Nat, i < _longest_all_time_streak results winFn →
      n + (i : Int) ∈ winNumbers results winFn) ∧
    (∀ (n : Int) (k : Nat),
      (∀ i : Nat, i < k → n + (i : Int) ∈ winNumbers results winFn) →
      k ≤ _longest_all_time_streak results winFn) ∧
    (winNumbers results winFn = [] → _longest_all_time_streak results winFn = 0) ∧
    _longest_all_time_streak c6Results = 3 := by
  refine ⟨?_, ?_, ?_, by decide⟩
  · -- soundness: the returned value is witnessed by a run
    by_cases hres : results.isEmpty
    · refine ⟨0, ?_⟩
      intro i hi
      rw [_longest_all_time_streak, if_pos hres] at hi
      omega
    · by_cases hwins : (winNumbers results winFn).isEmpty
      · refine ⟨0, ?_⟩
        intro i hi
        rw [_longest_all_time_streak, if_neg hres] at hi
        simp only [hwins, if_pos] at hi
        omega
      · rw [_longest_all_time_streak, if_neg hres]
        simp only [hwins, Bool.false_eq_true, if_false]
        rcases foldr_max_eq_zero_or_mem
            (fun n => runLen (winNumbers results winFn) n (winNumbers results winFn).length)
            ((winNumbers results winFn).filter
              (fun n => decide ((n - 1) ∉ winNumbers results winFn))) with h0 | ⟨a, _, heq⟩
        · refine ⟨0, ?_⟩
          intro i hi
          rw [h0] at hi
          omega
        · refine ⟨a, ?_⟩
          intro i hi
          rw [heq] at hi
          exact runLen_sound (winNumbers results winFn) _ a i hi
  · -- completeness: no run of consecutive win numbers is longer
    intro n k hrun
    cases k with
    | zero => omega
    | succ k' =>
      have hn : n ∈ winNumbers results winFn := by simpa using hrun 0 (by omega)
      have hres : ¬results.isEmpty := by
        intro h
        rw [List.isEmpty_iff] at h
        rw [winNumbers, h] at hn
        simp at hn
      have hwins : ¬(winNumbers results winFn).isEmpty := by
        intro h
        rw [List.isEmpty_iff] at h
        rw [h] at hn
        simp at hn
      rw [_longest_all_time_streak, if_neg hres]
      simp only [hwins, Bool.false_eq_true, if_false]
      rcases run_extends_to_start (winNumbers results winFn) (countBelow (winNumbers results winFn) n)
          n (k' + 1) (by omega) hrun (le_refl _) with ⟨s, hs1, hs2, hs3⟩
      have hsmem : s ∈ winNumbers results winFn := by
        refine hs3 s (le_refl s) ?_
        push_cast
        omega
      have hsfilter : s ∈ (winNumbers results winFn).filter
          (fun m => decide ((m - 1) ∉ winNumbers results winFn)) :=
        List.mem_filter.mpr ⟨hsmem, by simpa using hs2⟩
      have hK : ∀ i : Nat, i < (n - s).toNat + (k' + 1) →
          s + (i : Int) ∈ winNumbers results winFn := by
        intro i hi
        refine hs3 (s + (i : Int)) (by omega) ?_
        have : (i : Int) < (n - s).toNat + (k' + 1 : Nat) := by
          exact_mod_cast Nat.cast_lt.mpr hi
        rw [Int.toNat_of_nonneg (by omega : (0:Int) ≤ n - s)] at this
        push_cast at this ⊢
        omega
      have hlen : (n - s).toNat + (k' + 1) ≤ (winNumbers results winFn).length :=
        run_le_length _ s _ hK
      have hcomplete := runLen_complete (winNumbers results winFn)
        (winNumbers results winFn).length ((n - s).toNat + (k' + 1)) s hK hlen
      have hfold := le_foldr_max
        (fun m => runLen (winNumbers results winFn) m (winNumbers results winFn).length)
        _ s hsfilter
      have hk2 : k' + 1 ≤ runLen (winNumbers results winFn) s
          (winNumbers results winFn).length := by omega
      exact le_trans hk2 hfold
  · -- the empty win set yields 0
    intro h
    by_cases hres : results.isEmpty
    · rw [_longest_all_time_streak, if_pos hres]
    · rw [_longest_all_time_streak, if_neg hres]
      simp [h]

/-- Closed instantiation of `C6_longest_all_time_streak_correct`: no run
of length 4 exists in the win set {5,6,7,10,11}, so 4 is not bounded by
the result, while the actual run 5,6,7 forces the result to be
at least 3. -/
theorem C6_longest_all_time_streak_correct_witness :
    3 ≤ _longest_all_time_streak c6Results is_win_default :=
  (C6_longest_all_time_streak_correct c6Results is_win_default).2.1 5 3
    (by decide)

/-! ## Claim C2: `parse_result` (src/core/runtime.py 117-179) -/

/-- One parsed item handed back by the game plugin
(src/core/game_protocol.py): all keys `parse_result` reads. -/
structure ParsedItem where
  member_id : Int
  score : Score
  number : Int
  timestamp : Timestamp
  meta : List (String × Int)
deriving DecidableEq

/-- Python-dict update of the first (unique) matching key. -/
def dictUpdate (key : Int) (f : User → User) : List (Int × User) → List (Int × User)
  | [] => []
  | (k, u) :: rest =>
    if k = key then (k, f u) :: rest else (k, u) :: dictUpdate key f rest

/-- `member_id in user_dict`. -/
def dictHas (d : List (Int × User)) (key : Int) : Bool := (d.lookup key).isSome

/-- User creation on first attribution (src/core/runtime.py 143-154): a
stub author `str(uid)` when the guild lookup fails, the real member
otherwise. -/
def newUserFor (guild : List (Int × Author)) (mid : Int) : User :=
  match guild.lookup mid with
  | none => { author := ⟨mid, Int.repr mid, Int.repr mid⟩ }
  | some a => { author := a }

/-- src/core/runtime.py `parse_result`, over the item list the game
plugin returned: for each structurally well-formed item, get-or-create
the user, build the `Result`, call `add_result`, and increment
`ingested` — unconditionally, whether or not `add_result` stored the
result. -/
def parse_result (today : Int) (guild : List (Int × Author)) (items : List ParsedItem)
    (user_dict : List (Int × User)) : List (Int × User) × Nat :=
  items.foldl
    (fun acc item =>
      let d := if dictHas acc.1 item.member_id then acc.1
               else acc.1 ++ [(item.member_id, newUserFor guild item.member_id)]
      let r : Result := ⟨item.number, item.score, item.timestamp, item.meta⟩
      (dictUpdate item.member_id (fun u => add_result today u r) d, acc.2 + 1))
    (user_dict, 0)

/-- Total number of stored results across all players. -/
def usersTotalLen (d : List (Int × User)) : Nat :=
  (d.map (fun p => p.2.results.length)).sum

/-- A well-formed candidate item (number 5, a win) with today() = 10. -/
def c2Item : ParsedItem := ⟨7, .int 3, 5, .naive 0, []⟩

/-- C2: evaluation at the failing input.  A message yielding the same
candidate twice makes `parse_result` return 2, yet only one result is
stored (the second is dropped by `add_result` as a duplicate), so the
returned integer is NOT the number of results actually ingested — the
count is incremented even for candidates the store rejects. -/
theorem C2_parse_result_overcounts :
    (parse_result 10 [] [c2Item, c2Item] []).2 = 2 ∧
    usersTotalLen (parse_result 10 [] [c2Item, c2Item] []).1 = 1 ∧
    (parse_result 10 [] [c2Item, c2Item] []).2 ≠
      usersTotalLen (parse_result 10 [] [c2Item, c2Item] []).1 -
        usersTotalLen ([] : List (Int × User)) := by
  exact ⟨by decide, by decide, by decide⟩

/-! ## src/examples/wordle/game.py: line matcher (`LINE_PATTERN`) -/

/-- Python regex `\s`. -/
def isSpaceChar (c : Char) : Bool := c.isWhitespace

/-- Python regex handle-name class `[A-Za-z0-9._-]`. -/
def isHandleNameChar (c : Char) : Bool :=
  c.isAlpha || c.isDigit || c == '.' || c == '_' || c == '-'

/-- Value of a nonempty ASCII digit string. -/
def digitsToNat (ds : List Char) : Nat :=
  ds.foldl (fun acc c => acc * 10 + (c.toNat - '0'.toNat)) 0

/-- One handle token of `LINE_PATTERN`: a direct mention `<@id>` /
`<@!id>` or a free-text `@name`.  Returns the token and the remaining
characters.  Maximal munch is equivalent to the regex here: a shorter
`\d+` / name match always leaves a character the following context
rejects. -/
def parseHandle (cs : List Char) : Option (List Char × List Char) :=
  match cs with
  | '<' :: '@' :: rest =>
    let bang : List Char := match rest with
      | '!' :: _ => ['!']
      | _ => []
    let rest1 := rest.drop bang.length
    let digits := rest1.takeWhile Char.isDigit
    if digits.isEmpty then none
    else
      match rest1.drop digits.length with
      | '>' :: rest3 => some ('<' :: '@' :: bang ++ digits ++ ['>'], rest3)
      | _ => none
  | '@' :: rest =>
    let name := rest.takeWhile isHandleNameChar
    if name.isEmpty then none
    else some ('@' :: name, rest.drop name.length)
  | _ => none

/-- The handles group `(?:H)(?:\s+H)*\s*$` of `LINE_PATTERN` restricted
to a single line (no newline in the input): one or more
whitespace-separated handle tokens followed only by trailing whitespace.
Used by the spec's per-line reading of the extraction (see
`matchResultLine`); the whole-text matcher is `matchHandlesAux` below.
The fuel is an upper bound on the handle count (each consumes at least
one character). -/
def parseHandlesAux : Nat → List Char → Option (List (List Char))
  | 0, _ => none
  | fuel + 1, cs =>
    match parseHandle cs with
    | none => none
    | some (tok, rest) =>
      let ws := rest.takeWhile isSpaceChar
      let rest2 := rest.dropWhile isSpaceChar
      if rest2.isEmpty then some [tok]
      else if ws.isEmpty then none
      else
        match parseHandlesAux fuel rest2 with
        | none => none
        | some toks => some (tok :: toks)

/-- The `(\d+|X)\s*/\s*(\d+)\s*:\s*` element of `LINE_PATTERN` (common
to the per-line reading and the whole-text matcher; every `\s` step is
forced maximal because the next required character is never
whitespace).  Yields the score token, the total-allowed value, and the
characters after the `:\s*`. -/
def scoreColonSplit (cs : List Char) : Option ((List Char × Nat) × List Char) :=
  let digits := cs.takeWhile Char.isDigit
  let scoreTok : Option (List Char × List Char) :=
    if digits.isEmpty then
      match cs with
      | 'X' :: r => some (['X'], r)
      | _ => none
    else some (digits, cs.drop digits.length)
  match scoreTok with
  | none => none
  | some (t, rest) =>
    match rest.dropWhile isSpaceChar with
    | '/' :: r2 =>
      let r3 := r2.dropWhile isSpaceChar
      let total := r3.takeWhile Char.isDigit
      if total.isEmpty then none
      else
        match (r3.drop total.length).dropWhile isSpaceChar with
        | ':' :: r5 => some ((t, digitsToNat total), r5.dropWhile isSpaceChar)
        | _ => none
    | _ => none

/-- The part of `LINE_PATTERN` after the optional prefix token,
restricted to a single line: `(\d+|X)\s*/\s*(\d+)\s*:\s*<handles>`.
Yields the score token, the total-allowed value, and the handle tokens
in order.  Part of the spec's per-line reading; the whole-text matcher
is `matchScoreAt` below. -/
def parseScoreTail (cs : List Char) : Option (List Char × Nat × List (List Char)) :=
  match scoreColonSplit cs with
  | none => none
  | some ((t, total), r6) =>
    match parseHandlesAux (r6.length + 1) r6 with
    | none => none
    | some toks => some (t, total, toks)

/-- Modelled from the spec: the claim's per-line reading of
`LINE_PATTERN` — the shape
`^\s*(?:\S+\s+)?(\d+|X)\s*/\s*(\d+)\s*:\s*(handles)\s*$` matched
against one line in isolation, whitespace never crossing a newline.
The greedy optional prefix token is tried first, as the regex engine
does.  The source regex is compiled with `(?m)` and its `\s` also
matches `'\n'`, so the code's real matches may span lines; that
whole-text behavior is `matchAt`/`finditer_entries` below, and the two
agree exactly on newline-free text. -/
def matchResultLine (line : List Char) : Option (List Char × Nat × List (List Char)) :=
  let cs := line.dropWhile isSpaceChar
  let tok := cs.takeWhile (fun c => !isSpaceChar c)
  let rest := cs.drop tok.length
  let ws := rest.takeWhile isSpaceChar
  let withTok :=
    if tok.isEmpty || ws.isEmpty then none
    else parseScoreTail (rest.drop ws.length)
  match withTok with
  | some r => some r
  | none => parseScoreTail cs

/-- Split message text on newlines (used by the spec's per-line reading
of the extraction). -/
def splitLinesAux (cur : List Char) : List Char → List (List Char)
  | [] => [cur.reverse]
  | c :: rest =>
    if c = '\n' then cur.reverse :: splitLinesAux [] rest
    else splitLinesAux (c :: cur) rest

/-- All lines of a message. -/
def splitLines (cs : List Char) : List (List Char) := splitLinesAux [] cs

/-- Modelled from the spec: one line's contribution under the claim's
per-line reading — the per-line shape match plus the `if handles:`
guard. -/
def lineEntry (l : List Char) : Option (List Char × Nat × List (List Char)) :=
  match matchResultLine l with
  | none => none
  | some (t, tot, hs) => if hs.isEmpty then none else some (t, tot, hs)

/-- Modelled from the spec: the claim's per-line extraction — split at
newlines, one entry per line matching the shape, skipping non-matching
lines.  Compared against the faithful `_iter_result_lines` below. -/
def per_line_entries_spec (text : String) : List (List Char × Nat × List (List Char)) :=
  (splitLines text.data).filterMap lineEntry

/-- The regex `\s*$` from the current position, with the engine's
backtracking: `$` (multiline) holds at end of string or just before a
`'\n'`.  Greedily consume the whitespace run; succeed ending at the end
of string when the run reaches it, else at the run's last `'\n'`.
Returns the unconsumed remainder (the match ends where it starts). -/
def endAnchorSplit (cs : List Char) : Option (List Char) :=
  let run := cs.takeWhile isSpaceChar
  let rest := cs.dropWhile isSpaceChar
  if rest.isEmpty then some []
  else
    let t := (run.reverse.takeWhile (fun c => !(c == '\n'))).length
    if t = run.length then none
    else some (run.drop (run.length - t - 1) ++ rest)

/-- The handles group `(?:H)(?:\s+H)*\s*$` of `LINE_PATTERN` with the
source's whole-text semantics: `\s` also matches `'\n'`, and the greedy
repetition backtracks — after each handle the engine first tries to
continue with `\s+H...`, and on failure of that whole continuation falls
back to ending the match here with `\s*$`.  Within one step maximal
munch is forced (a handle starts with a non-space character).  Returns
the handle tokens and the unconsumed remainder after the match end. -/
def matchHandlesAux : Nat → List Char → Option (List (List Char) × List Char)
  | 0, _ => none
  | fuel + 1, cs =>
    match parseHandle cs with
    | none => none
    | some (tok, rest) =>
      let ws := rest.takeWhile isSpaceChar
      let cont :=
        if ws.isEmpty then none
        else
          match matchHandlesAux fuel (rest.dropWhile isSpaceChar) with
          | some (toks, rest') => some (tok :: toks, rest')
          | none => none
      match cont with
      | some r => some r
      | none =>
        match endAnchorSplit rest with
        | some rest' => some ([tok], rest')
        | none => none

/-- The part of `LINE_PATTERN` after the optional prefix token, with the
source's whole-text semantics (`\s` spans newlines):
`(\d+|X)\s*/\s*(\d+)\s*:\s*<handles>\s*$`.  Yields the captures and the
unconsumed remainder after the match end. -/
def matchScoreAt (cs : List Char) :
    Option ((List Char × Nat × List (List Char)) × List Char) :=
  match scoreColonSplit cs with
  | none => none
  | some ((t, total), r6) =>
    match matchHandlesAux (r6.length + 1) r6 with
    | none => none
    | some (toks, rest') => some ((t, total, toks), rest')

/-- A `LINE_PATTERN` match attempt at a line-start position of the whole
text: `^\s*(?:\S+\s+)?` then `matchScoreAt`, every `\s` also matching
`'\n'`.  The greedy optional prefix token is tried first, as the regex
engine does.  Yields the captures and the unconsumed remainder. -/
def matchAt (cs : List Char) :
    Option ((List Char × Nat × List (List Char)) × List Char) :=
  let cs1 := cs.dropWhile isSpaceChar
  let tok := cs1.takeWhile (fun c => !isSpaceChar c)
  let rest := cs1.drop tok.length
  let ws := rest.takeWhile isSpaceChar
  let withTok :=
    if tok.isEmpty || ws.isEmpty then none
    else matchScoreAt (rest.drop ws.length)
  match withTok with
  | some r => some r
  | none => matchScoreAt cs1

/-- `LINE_PATTERN.finditer(text)`: scan left to right; the leading
multiline `^` lets a match start only at the start of the string or
right after a `'\n'`; each successful match is yielded and scanning
resumes at its end (non-overlapping).  A match always ends at the end
of the string or just before a `'\n'`, so resuming with
`lineStart := false` and stepping over that `'\n'` reaches the next
line start exactly as the engine does.  The fuel is the text length
plus one (every step consumes at least one character). -/
def finditer_entries : Nat → Bool → List Char → List (List Char × Nat × List (List Char))
  | 0, _, _ => []
  | fuel + 1, lineStart, cs =>
    match cs with
    | [] => []
    | c :: rest =>
      if lineStart then
        match matchAt cs with
        | some (e, rest') => e :: finditer_entries fuel false rest'
        | none => finditer_entries fuel (c == '\n') rest
      else finditer_entries fuel (c == '\n') rest

/-- src/examples/wordle/game.py `_iter_result_lines`: one entry per
regex match of `LINE_PATTERN` over the whole message (matches may span
newlines through `\s`), plus the `if handles:` guard. -/
def _iter_result_lines (text : String) : List (List Char × Nat × List (List Char)) :=
  (finditer_entries (text.data.length + 1) true text.data).filter
    (fun tri => !tri.2.2.isEmpty)

/-! ## src/examples/wordle/game.py: `_resolve_member_from_token` -/

/-- The member attributes the resolver reads (game.py 45-50). -/
structure Member where
  id : Int
  name : String
  display_name : String
  global_name : Option String
deriving DecidableEq

/-- A Discord message as consumed by the game plugin: content, creation
instant, and the guild member roster (`None` when there is no guild). -/
structure Msg where
  content : String
  created_at : Timestamp
  guild : Option (List Member)
deriving DecidableEq

/-- Python `str.strip()`. -/
def trimChars (cs : List Char) : List Char :=
  ((cs.dropWhile isSpaceChar).reverse.dropWhile isSpaceChar).reverse

/-- Python `str.casefold()` (ASCII lowering suffices for the rosters the
resolver sees). -/
def lowerChars (cs : List Char) : List Char := cs.map Char.toLower

/-- game.py 40-42 `normalize`: keep only alphanumerics, casefold. -/
def normalizeChars (cs : List Char) : List Char :=
  lowerChars (cs.filter Char.isAlphanum)

/-- game.py 46-50 `usernames`: name, display name and stripped global
name (`None` global name contributes the empty string). -/
def userNameFields (m : Member) : List (List Char) :=
  [m.name.data, m.display_name.data,
   match m.global_name with
   | none => []
   | some g => trimChars g.data]

/-- game.py 52: `u and u.casefold() == handle_ci` on any name field. -/
def fieldExactCI (handleCI : List Char) (m : Member) : Bool :=
  (userNameFields m).any (fun u => !u.isEmpty && lowerChars u == handleCI)

/-- game.py 59: `u and normalize(u) == handle_norm` on any name field. -/
def fieldNormEq (handleNorm : List Char) (m : Member) : Bool :=
  (userNameFields m).any (fun u => !u.isEmpty && normalizeChars u == handleNorm)

/-- game.py 65: `u and u.casefold().startswith(handle_ci)` on any name
field. -/
def fieldStartCI (handleCI : List Char) (m : Member) : Bool :=
  (userNameFields m).any (fun u => !u.isEmpty && handleCI.isPrefixOf (lowerChars u))

/-- The member loop of game.py 44-54: return the first case-insensitive
exact match immediately, otherwise accumulate the scanned members as
`candidates` (in roster order) for the later stages. -/
def resolveStage1 (handleCI : List Char) :
    List Member → List Member → Option Int × List Member
  | [], cands => (none, cands.reverse)
  | m :: rest, cands =>
    if fieldExactCI handleCI m then (some m.id, cands.reverse)
    else resolveStage1 handleCI rest (m :: cands)

/-- src/examples/wordle/game.py `_resolve_member_from_token`.  The
source receives `msg` but reads only `msg.guild`, passed here directly.
Direct mentions parse the embedded id (all leading `!` stripped);
free-text handles try, in order and stopping at the first success,
case-insensitive exact match, alphanumeric-normalized exact match, and
unique case-insensitive prefix match; two or more prefix matches are
ambiguous and fail. -/
def _resolve_member_from_token (guild : Option (List Member)) (token : String) : Option Int :=
  let tks := token.data
  if tks.take 2 = ['<', '@'] ∧ tks.getLast? = some '>' then
    let raw := ((tks.drop 2).dropLast).dropWhile (fun c => c == '!')
    if !raw.isEmpty && raw.all Char.isDigit then some (digitsToNat raw : Int)
    else none
  else
    match tks, guild with
    | '@' :: restName, some members =>
      let handle := trimChars restName
      let handleCI := lowerChars handle
      match resolveStage1 handleCI members [] with
      | (some mid, _) => some mid
      | (none, candidates) =>
        let handleNorm := normalizeChars handle
        match candidates.find? (fun m => fieldNormEq handleNorm m) with
        | some m => some m.id
        | none =>
          match candidates.filter (fun m => fieldStartCI handleCI m) with
          | [m] => some m.id
          | _ => none
    | _, _ => none

/-! ## src/examples/wordle/game.py: `WordleGame.parse_message` -/

/-- game.py 97: `int(tries_tok) if str(tries_tok).isdigit() else str(tries_tok)`. -/
def scoreOfToken (t : List Char) : Score :=
  if !t.isEmpty && t.all Char.isDigit then .int (digitsToNat t)
  else .str (String.mk t)

/-- src/examples/wordle/game.py `WordleGame.parse_message`: map the
message timestamp to a puzzle number, cap it at today's number, extract
the result lines, and emit one candidate item per resolvable handle
token, sharing the line's score and the capped puzzle number.
(The source's final `return items if any_line_parsed else []` is the
identity: `items` is empty exactly when no handle parsed.) -/
def parse_message (cfg : DatesConfig) (localOff nowUtc : Int) (msg : Msg) : List ParsedItem :=
  let p := date_to_num cfg localOff nowUtc (some msg.created_at)
  let newest := date_to_num cfg localOff nowUtc none
  let puzzle_num := if p > newest then newest else p
  let line_matches := _iter_result_lines msg.content
  if line_matches.isEmpty then []
  else
    line_matches.flatMap (fun tri =>
      ((tri.2.2).filterMap
          (fun tok => _resolve_member_from_token msg.guild (String.mk tok))).map
        (fun mid =>
          ⟨mid, scoreOfToken tri.1, puzzle_num, msg.created_at,
           [("total", (tri.2.1 : Int))]⟩))

/-! ## Claim C7 -/

/-- Roster member "alice" for the C7 example. -/
def c7Alice : Member := ⟨100, "alice", "Alice", none⟩

/-- A second roster member, not mentioned by the C7 example line. -/
def c7Bob : Member := ⟨2, "bob", "Bobby", none⟩

/-- The C7 example message: numbering epoch at ordinal 0 and an instant
on local day 100, so the message's date maps to puzzle number 100. -/
def c7Msg : Msg := ⟨"3/6: @alice <@!42>", .aware (86400 * 100), some [c7Alice, c7Bob]⟩

/-- C7 counterexample: the extraction is NOT per-line.  `LINE_PATTERN`
is compiled with `(?m)` and its `\s` also matches `'\n'`, so a match
can span lines: on `"3/6: @a\n@b"` the code produces one entry whose
handle list also carries `"@b"` from the next line, and on
`"3/6:\n@a"` it produces an entry although no single line has the
claimed shape — while the claim's per-line algorithm yields `["@a"]`
alone and nothing, respectively. -/
theorem C7_counterexample :
    _iter_result_lines "3/6: @a\n@b" = [(['3'], 6, ["@a".data, "@b".data])] ∧
    per_line_entries_spec "3/6: @a\n@b" = [(['3'], 6, ["@a".data])] ∧
    _iter_result_lines "3/6:\n@a" = [(['3'], 6, ["@a".data])] ∧
    per_line_entries_spec "3/6:\n@a" = [] ∧
    _iter_result_lines "3/6: @a\n@b" ≠ per_line_entries_spec "3/6: @a\n@b" :=
  ⟨by decide, by decide, by decide, by decide, by decide⟩

/-- `dropWhile` keeps only elements of the original list. -/
theorem dropWhile_subset_self (p : Char → Bool) (l : List Char) : l.dropWhile p ⊆ l :=
  (List.dropWhile_sublist p).subset

/-- The remainder a successful `parseHandle` returns consists of
characters of its input. -/
theorem parseHandle_rest_subset {cs tok rest : List Char}
    (h : parseHandle cs = some (tok, rest)) : rest ⊆ cs := by
  unfold parseHandle at h
  split at h
  · rename_i cs2
    dsimp only at h
    split at h
    · exact absurd h (by simp)
    · split at h
      · rename_i rest3 heq
        simp only [Option.some.injEq, Prod.mk.injEq] at h
        rcases h with ⟨-, rfl⟩
        intro x hx
        have h1 : x ∈ ('>' :: rest3) := List.mem_cons_of_mem _ hx
        rw [← heq] at h1
        have h2 := List.drop_subset _ _ h1
        have h3 := List.drop_subset _ _ h2
        exact List.mem_cons_of_mem _ (List.mem_cons_of_mem _ h3)
      · exact absurd h (by simp)
  · rename_i cs2
    dsimp only at h
    split at h
    · exact absurd h (by simp)
    · simp only [Option.some.injEq, Prod.mk.injEq] at h
      rcases h with ⟨-, rfl⟩
      intro x hx
      exact List.mem_cons_of_mem _ (List.drop_subset _ _ hx)
  · exact absurd h (by simp)

/-- The remainder a successful `scoreColonSplit` returns consists of
characters of its input. -/
theorem scoreColonSplit_rest_subset {cs : List Char} {st : List Char × Nat}
    {r6 : List Char} (h : scoreColonSplit cs = some (st, r6)) : r6 ⊆ cs := by
  unfold scoreColonSplit at h
  dsimp only at h
  split at h
  · exact absurd h (by simp)
  · rename_i t rest heq
    have hrest : rest ⊆ cs := by
      split at heq
      · split at heq
        · simp only [Option.some.injEq, Prod.mk.injEq] at heq
          rcases heq with ⟨-, rfl⟩
          intro x hx
          exact List.mem_cons_of_mem _ hx
        · exact absurd heq (by simp)
      · simp only [Option.some.injEq, Prod.mk.injEq] at heq
        rcases heq with ⟨-, rfl⟩
        exact List.drop_subset _ _
    split at h
    · rename_i r2 heq2
      split at h
      · exact absurd h (by simp)
      · split at h
        · rename_i r5 heq3
          simp only [Option.some.injEq, Prod.mk.injEq] at h
          rcases h with ⟨-, rfl⟩
          intro x hx
          have h1 : x ∈ (':' :: r5) :=
            List.mem_cons_of_mem _ (dropWhile_subset_self _ _ hx)
          rw [← heq3] at h1
          have h2 := dropWhile_subset_self _ _ h1
          have h3 := List.drop_subset _ _ h2
          have h4 := dropWhile_subset_self _ _ h3
          have h5 : x ∈ ('/' :: r2) := List.mem_cons_of_mem _ h4
          rw [← heq2] at h5
          exact hrest (dropWhile_subset_self _ _ h5)
        · exact absurd h (by simp)
    · exact absurd h (by simp)

/-- `parseHandlesAux` never succeeds on the empty input. -/
theorem parseHandlesAux_nil : ∀ fuel : Nat, parseHandlesAux fuel [] = none := by
  intro fuel
  cases fuel with
  | zero => rfl
  | succ fuel => rfl

/-- On newline-free input, the backtracking `\s*$` step succeeds (ending
at the end of the string, consuming everything) exactly when only
whitespace remains. -/
theorem endAnchorSplit_no_newline {cs : List Char} (hnl : '\n' ∉ cs) :
    endAnchorSplit cs =
      if (cs.dropWhile isSpaceChar).isEmpty then some [] else none := by
  unfold endAnchorSplit
  dsimp only
  by_cases he : (cs.dropWhile isSpaceChar).isEmpty
  · simp [he]
  · simp only [he, Bool.false_eq_true, if_false]
    have hall : ∀ c ∈ (cs.takeWhile isSpaceChar).reverse, (!(c == '\n')) = true := by
      intro c hc
      have hmem : c ∈ cs :=
        (List.takeWhile_prefix isSpaceChar).sublist.subset (List.mem_reverse.mp hc)
      have hne : c ≠ '\n' := fun hh => hnl (hh ▸ hmem)
      simp [hne]
    rw [List.takeWhile_eq_self_iff.mpr hall]
    simp

/-- On newline-free input the whole-text handles matcher agrees with the
per-line one: the match can only end at the end of the input. -/
theorem matchHandlesAux_no_newline :
    ∀ (fuel : Nat) (cs : List Char), '\n' ∉ cs →
      matchHandlesAux fuel cs =
        (parseHandlesAux fuel cs).map (fun toks => (toks, ([] : List Char))) := by
  intro fuel
  induction fuel with
  | zero => intro cs _; rfl
  | succ fuel ih =>
    intro cs hnl
    simp only [matchHandlesAux, parseHandlesAux]
    rcases hp : parseHandle cs with _ | ⟨tok, rest⟩
    · rfl
    · have hrest : '\n' ∉ rest := fun hx => hnl (parseHandle_rest_subset hp hx)
      have hrest2 : '\n' ∉ rest.dropWhile isSpaceChar :=
        fun hx => hrest (dropWhile_subset_self _ _ hx)
      dsimp only
      rw [ih _ hrest2, endAnchorSplit_no_newline hrest]
      by_cases he : (rest.dropWhile isSpaceChar).isEmpty
      · have hnil : rest.dropWhile isSpaceChar = [] := List.isEmpty_iff.mp he
        rw [hnil, parseHandlesAux_nil]
        simp [he]
      · simp only [he, Bool.false_eq_true, if_false]
        rcases hpa : parseHandlesAux fuel (rest.dropWhile isSpaceChar) with _ | toks
        · simp [hpa]
        · by_cases hw : (rest.takeWhile isSpaceChar).isEmpty
          · -- whitespace required between handles is missing: both fail
            have : rest.takeWhile isSpaceChar = [] := List.isEmpty_iff.mp hw
            simp [hw, hpa]
          · simp [hw, hpa]

/-- On newline-free input the whole-text score matcher agrees with the
per-line one. -/
theorem matchScoreAt_no_newline {cs : List Char} (hnl : '\n' ∉ cs) :
    matchScoreAt cs = (parseScoreTail cs).map (fun e => (e, ([] : List Char))) := by
  unfold matchScoreAt parseScoreTail
  rcases hsc : scoreColonSplit cs with _ | ⟨⟨t, total⟩, r6⟩
  · rfl
  · have h6 : '\n' ∉ r6 := fun hx => hnl (scoreColonSplit_rest_subset hsc hx)
    dsimp only
    rw [matchHandlesAux_no_newline _ _ h6]
    rcases hph : parseHandlesAux (r6.length + 1) r6 with _ | toks
    · simp [hph]
    · simp [hph]

/-- On newline-free input a whole-text match attempt agrees with the
per-line shape match. -/
theorem matchAt_no_newline {cs : List Char} (hnl : '\n' ∉ cs) :
    matchAt cs = (matchResultLine cs).map (fun e => (e, ([] : List Char))) := by
  unfold matchAt matchResultLine
  dsimp only
  have h1 : '\n' ∉ cs.dropWhile isSpaceChar :=
    fun hx => hnl (dropWhile_subset_self _ _ hx)
  have h2 : '\n' ∉ (cs.dropWhile isSpaceChar).drop
      ((cs.dropWhile isSpaceChar).takeWhile (fun c => !isSpaceChar c)).length :=
    fun hx => h1 (List.drop_subset _ _ hx)
  have h3 : '\n' ∉ ((cs.dropWhile isSpaceChar).drop
        ((cs.dropWhile isSpaceChar).takeWhile (fun c => !isSpaceChar c)).length).drop
      (((cs.dropWhile isSpaceChar).drop
        ((cs.dropWhile isSpaceChar).takeWhile (fun c => !isSpaceChar c)).length).takeWhile
          isSpaceChar).length :=
    fun hx => h2 (List.drop_subset _ _ hx)
  by_cases hTok : ((cs.dropWhile isSpaceChar).takeWhile (fun c => !isSpaceChar c)).isEmpty ||
      (((cs.dropWhile isSpaceChar).drop
        ((cs.dropWhile isSpaceChar).takeWhile (fun c => !isSpaceChar c)).length).takeWhile
          isSpaceChar).isEmpty
  · rw [if_pos hTok, if_pos hTok]
    dsimp only
    rw [matchScoreAt_no_newline h1]
  · rw [if_neg hTok, if_neg hTok]
    rw [matchScoreAt_no_newline h3]
    rcases hp1 : parseScoreTail (((cs.dropWhile isSpaceChar).drop
        ((cs.dropWhile isSpaceChar).takeWhile (fun c => !isSpaceChar c)).length).drop
      (((cs.dropWhile isSpaceChar).drop
        ((cs.dropWhile isSpaceChar).takeWhile (fun c => !isSpaceChar c)).length).takeWhile
          isSpaceChar).length) with _ | e
    · simp only [hp1, Option.map_none']
      rw [matchScoreAt_no_newline h1]
    · simp [hp1]

/-- Away from a line start the scanner can never match on newline-free
input: the multiline `^` anchor needs the string start or a preceding
newline. -/
theorem finditer_entries_no_line_start :
    ∀ (fuel : Nat) (cs : List Char), '\n' ∉ cs →
      finditer_entries fuel false cs = [] := by
  intro fuel
  induction fuel with
  | zero => intro cs _; rfl
  | succ fuel ih =>
    intro cs hnl
    match cs with
    | [] => rfl
    | c :: rest =>
      have hc : (c == '\n') = false := by
        simp only [beq_eq_false_iff_ne, ne_eq]
        intro h
        exact hnl (h ▸ List.mem_cons_self c rest)
      simp only [finditer_entries, Bool.false_eq_true, if_false, hc]
      exact ih rest (fun hx => hnl (List.mem_cons_of_mem c hx))

/-- On a newline-free text the whole-text extraction coincides with the
spec's per-line reading of the single line. -/
theorem finditer_no_newline_eq (cs : List Char) (hnl : '\n' ∉ cs) :
    (finditer_entries (cs.length + 1) true cs).filter (fun tri => !tri.2.2.isEmpty) =
      (lineEntry cs).toList := by
  match cs, hnl with
  | [], _ => rfl
  | c :: rest, hnl =>
    have hc : (c == '\n') = false := by
      simp only [beq_eq_false_iff_ne, ne_eq]
      intro h
      exact hnl (h ▸ List.mem_cons_self c rest)
    have hrest : '\n' ∉ rest := fun hx => hnl (List.mem_cons_of_mem c hx)
    have hstep : finditer_entries ((c :: rest).length + 1) true (c :: rest) =
        match matchAt (c :: rest) with
        | some (e, rest') => e :: finditer_entries (c :: rest).length false rest'
        | none => finditer_entries (c :: rest).length (c == '\n') rest := rfl
    rw [hstep, matchAt_no_newline hnl]
    rcases hm : matchResultLine (c :: rest) with _ | e
    · simp only [hm, Option.map_none']
      rw [hc, finditer_entries_no_line_start _ rest hrest]
      simp [lineEntry, hm]
    · simp only [hm, Option.map_some']
      rcases e with ⟨t, tot, hs⟩
      rw [finditer_entries_no_line_start _ [] (by simp)]
      by_cases hhs : hs.isEmpty
      · simp [lineEntry, hm, hhs, List.filter_cons]
      · simp [lineEntry, hm, hhs, List.filter_cons]

/-- C7 amended: the extraction yields exactly one entry per leftmost
non-overlapping match of the line pattern over the whole message, where
the pattern's whitespace also spans newlines (so an entry may absorb a
prefix token, its score part, or further handle tokens from adjacent
lines); restricted to a message without newlines — in particular to any
single line — it is exactly the claim's per-line extraction: one entry
when the line has the shape, none otherwise, and every entry carries at
least one handle token.  The example is as claimed: the line
`"3/6: @alice <@!42>"` yields one entry with score token "3", total 6
and handle tokens `"@alice"`, `"<@!42>"` in order, and on a message of
that line the parser emits exactly two candidate results sharing score
3, total 6 and the puzzle number of the message's date, attributed to
the two handles in order. -/
theorem C7_line_matcher_amended :
    (∀ text : String, '\n' ∉ text.data →
      _iter_result_lines text = (lineEntry text.data).toList) ∧
    (∀ (text : String) (e : List Char × Nat × List (List Char)),
      e ∈ _iter_result_lines text → e.2.2 ≠ []) ∧
    lineEntry ("3/6: @alice <@!42>".data) =
      some (['3'], 6, ["@alice".data, "<@!42>".data]) ∧
    parse_message { epoch_date := 0 } 0 (86400 * 100) c7Msg =
      [⟨100, .int 3, 100, .aware (86400 * 100), [("total", 6)]⟩,
       ⟨42, .int 3, 100, .aware (86400 * 100), [("total", 6)]⟩] := by
  refine ⟨?_, ?_, by decide, by decide⟩
  · intro text hnl
    exact finditer_no_newline_eq text.data hnl
  · intro text e he
    unfold _iter_result_lines at he
    have := (List.mem_filter.mp he).2
    simpa [List.isEmpty_iff] using this

/-- Closed instantiation of `C7_line_matcher_amended` at the example
line (a newline-free message). -/
theorem C7_line_matcher_amended_witness :
    _iter_result_lines "3/6: @alice <@!42>" =
      (lineEntry ("3/6: @alice <@!42>".data)).toList :=
  C7_line_matcher_amended.1 "3/6: @alice <@!42>" (by decide)

/-! ## Claim C8 -/

/-- When no member matches exactly, the stage-1 loop scans the whole
roster and hands it over (in order) as the candidate list. -/
theorem resolveStage1_no_match (handleCI : List Char) :
    ∀ (ms cands : List Member), (∀ m ∈ ms, fieldExactCI handleCI m = false) →
      resolveStage1 handleCI ms cands = (none, cands.reverse ++ ms) := by
  intro ms
  induction ms with
  | nil => intro cands _; simp [resolveStage1]
  | cons m rest ih =>
    intro cands h
    have hm : fieldExactCI handleCI m = false := h m (by simp)
    simp only [resolveStage1, hm, Bool.false_eq_true, if_false]
    rw [ih (m :: cands) (fun x hx => h x (List.mem_cons_of_mem m hx))]
    simp

/-- The stage-1 loop returns the id of the first exact match. -/
theorem resolveStage1_finds (handleCI : List Char) :
    ∀ (ms cands : List Member),
      (resolveStage1 handleCI ms cands).1 =
        (ms.find? (fun m => fieldExactCI handleCI m)).map (fun m => m.id) := by
  intro ms
  induction ms with
  | nil => intro cands; simp [resolveStage1]
  | cons m rest ih =>
    intro cands
    rcases h : fieldExactCI handleCI m with _ | _
    · simp [resolveStage1, h, List.find?_cons_of_neg, ih]
    · simp [resolveStage1, h, List.find?_cons_of_pos]

/-- C8: free-text resolution tries the stages in order and stops at the
first success — an exact case-insensitive match on any name field wins
immediately (first such member in roster order) — and the prefix stage
succeeds only when it is unique: whenever no member matches the handle
exactly (raw or normalized) and two or more members prefix-match, the
resolver returns none. -/
theorem C8_resolution_order_and_ambiguity (members : List Member) (restName : List Char) :
    (∀ m : Member,
      members.find? (fun m => fieldExactCI (lowerChars (trimChars restName)) m) = some m →
      _resolve_member_from_token (some members) (String.mk ('@' :: restName)) = some m.id) ∧
    ((∀ m ∈ members, fieldExactCI (lowerChars (trimChars restName)) m = false) →
     (∀ m ∈ members, fieldNormEq (normalizeChars (trimChars restName)) m = false) →
     2 ≤ (members.filter (fun m => fieldStartCI (lowerChars (trimChars restName)) m)).length →
     _resolve_member_from_token (some members) (String.mk ('@' :: restName)) = none) := by
  have hmention : ¬(((String.mk ('@' :: restName)).data.take 2 = ['<', '@'] ∧
      (String.mk ('@' :: restName)).data.getLast? = some '>')) := by
    rintro ⟨h1, -⟩
    rcases restName with _ | ⟨c, cs⟩ <;> simp_all
  constructor
  · intro m hfind
    have hfst : (resolveStage1 (lowerChars (trimChars restName)) members []).1 = some m.id := by
      rw [resolveStage1_finds, hfind]; rfl
    rcases hres : resolveStage1 (lowerChars (trimChars restName)) members [] with ⟨fst, snd⟩
    rw [hres] at hfst
    simp only at hfst
    subst hfst
    simp only [_resolve_member_from_token, if_neg hmention]
    rw [hres]
  · intro h1 h2 h3
    have hres : resolveStage1 (lowerChars (trimChars restName)) members [] =
        (none, members) := by
      rw [resolveStage1_no_match _ members [] h1]; rfl
    have hfind : members.find?
        (fun m => fieldNormEq (normalizeChars (trimChars restName)) m) = none := by
      rw [List.find?_eq_none]
      intro x hx
      simp [h2 x hx]
    simp only [_resolve_member_from_token, if_neg hmention]
    rw [hres]
    dsimp only
    rw [hfind]
    rcases hpm : members.filter
        (fun m => fieldStartCI (lowerChars (trimChars restName)) m) with _ | ⟨a, _ | ⟨b, rest⟩⟩
    · rfl
    · rw [hpm] at h3; simp at h3
    · rfl

/-- Closed instantiation of `C8_resolution_order_and_ambiguity`: handle
"@bob" prefix-matches both "bobby" and "bobbie" and matches neither
exactly, so it resolves to none. -/
theorem C8_resolution_order_and_ambiguity_witness :
    _resolve_member_from_token
      (some [⟨1, "bobby", "B1", none⟩, ⟨2, "bobbie", "B2", none⟩])
      (String.mk ('@' :: "bob".data)) = none :=
  (C8_resolution_order_and_ambiguity
    [⟨1, "bobby", "B1", none⟩, ⟨2, "bobbie", "B2", none⟩] "bob".data).2
    (by decide) (by decide) (by decide)

/-! ## Claim C10 -/

/-- `User.add_result` with its future-number guard removed (the
duplicate check and the storage path are unchanged): used to state that
the guard is unreachable for parser-produced candidates. -/
def add_result_unguarded (today : Int) (u : User) (r : Result) : User :=
  if r.number ∈ u.played_nums then u
  else
    { u with
      results := List.insertionSort resultLe (u.results ++ [r]),
      cur_streak :=
        if r.number = today then
          match r.score with
          | .int _ => u.cur_streak + 1
          | .str _ => 0
        else u.cur_streak,
      total_games := u.total_games + 1,
      played_nums := u.played_nums ++ [r.number],
      last_played :=
        match u.last_played with
        | none => some r.number
        | some v => if v = 0 ∨ r.number > v then some r.number else some v }

/-- C10: every candidate item emitted by `parse_message` carries a
puzzle number at most today's number (a message mapping beyond today is
silently capped, game.py 82-84), so under a stable clock `add_result`'s
future-result rejection branch can never fire on a parser-produced
candidate — it behaves exactly like the unguarded store; and the cap
keeps candidates rather than dropping them: changing the message
timestamp never changes how many candidates are emitted. -/
theorem C10_parser_caps_puzzle_number (cfg : DatesConfig) (localOff nowUtc : Int) (msg : Msg) :
    (∀ item ∈ parse_message cfg localOff nowUtc msg,
      item.number ≤ date_to_num cfg localOff nowUtc none ∧
      ∀ u : User,
        add_result (date_to_num cfg localOff nowUtc none) u
          ⟨item.number, item.score, item.timestamp, item.meta⟩ =
        add_result_unguarded (date_to_num cfg localOff nowUtc none) u
          ⟨item.number, item.score, item.timestamp, item.meta⟩) ∧
    (∀ ts : Timestamp,
      (parse_message cfg localOff nowUtc { msg with created_at := ts }).length =
        (parse_message cfg localOff nowUtc msg).length) := by
  constructor
  · intro item hitem
    have hnum : item.number ≤ date_to_num cfg localOff nowUtc none := by
      rw [parse_message] at hitem
      by_cases hempty : (_iter_result_lines msg.content).isEmpty
      · simp only [hempty, if_pos] at hitem
        cases hitem
      · simp only [hempty, Bool.false_eq_true, if_false] at hitem
        rcases List.mem_flatMap.mp hitem with ⟨tri, htri, hin⟩
        rcases List.mem_map.mp hin with ⟨mid, hmid, rfl⟩
        simp only
        by_cases hcap : date_to_num cfg localOff nowUtc (some msg.created_at) >
            date_to_num cfg localOff nowUtc none
        · simp only [if_pos hcap]; omega
        · simp only [if_neg hcap]; omega
    refine ⟨hnum, ?_⟩
    intro u
    rw [add_result, add_result_unguarded, if_neg (by simp only; omega)]
  · intro ts
    by_cases hempty : (_iter_result_lines msg.content).isEmpty
    · simp only [parse_message, hempty, if_pos]
    · simp only [parse_message, hempty, Bool.false_eq_true, if_false,
        List.length_flatMap]
      congr 1
      apply List.map_congr_left
      intro tri _
      simp [List.length_map]

/-- Closed instantiation of `C10_parser_caps_puzzle_number`: a message
stamped 5 days past "now" still yields its candidate, and its number is
capped to today's number. -/
theorem C10_parser_caps_puzzle_number_witness :
    ∃ item ∈ parse_message { epoch_date := 0 } 0 (86400 * 100)
      ⟨"3/6: <@!42>", .aware (86400 * 105), none⟩,
      item.number ≤ date_to_num { epoch_date := 0 } 0 (86400 * 100) none := by
  refine ⟨⟨42, .int 3, 100, .aware (86400 * 105), [("total", 6)]⟩, by decide, ?_⟩
  exact ((C10_parser_caps_puzzle_number { epoch_date := 0 } 0 (86400 * 100)
    ⟨"3/6: <@!42>", .aware (86400 * 105), none⟩).1
    ⟨42, .int 3, 100, .aware (86400 * 105), [("total", 6)]⟩ (by decide)).1

/-! ## Claim C9: `send_last_n_month_calendars` (src/core/runtime.py 350-513),
ASCII branch (`use_emojis=False`).  Dates are ordinals; a month is the
ordinal interval of its days, which on the grid dates is the same test
as Python's `d.month != m`. -/

/-- `calendar.Calendar(firstweekday=MONDAY).monthdatescalendar(y, m)`:
full Monday-first weeks covering the month, as ordinals.  Day 1 of
year 1 is a Monday, so `weekday(o) = (o - 1) % 7`. -/
def monthWeeks (y m : Int) : List (List Int) :=
  let first := toOrdinal y m 1
  let wd := (first - 1) % 7
  let start := first - wd
  let nweeks := ((wd + daysInMonth y m + 6) / 7).toNat
  (List.range nweeks).map (fun w =>
    (List.range 7).map (fun d => start + 7 * (w : Int) + (d : Int)))

/-- runtime.py 380-383 `back_months`: `divmod(y*12 + (m-1) - delta, 12)`. -/
def back_months (y m delta : Int) : Int × Int :=
  let idx := y * 12 + (m - 1) - delta
  (idx / 12, idx % 12 + 1)

/-- runtime.py 387: the n consecutive months ending at (ey, em),
oldest first (`range(n-1, -1, -1)`). -/
def monthsList (ey em : Int) (n : Nat) : List (Int × Int) :=
  (List.range n).reverse.map (fun d => back_months ey em (d : Int))

/-- The values `_collect_scores_for_numbers` stores: an int score or the
Wordle failure marker (every other string is skipped at collection). -/
inductive CollectedScore where
  | num (n : Int)
  | failX
deriving DecidableEq

/-- Python-dict insertion: replace the (unique) existing key or append. -/
def upsertScore (mp : List (Int × CollectedScore)) (k : Int) (v : CollectedScore) :
    List (Int × CollectedScore) :=
  match mp with
  | [] => [(k, v)]
  | (k', v') :: rest =>
    if k' = k then (k, v) :: rest else (k', v') :: upsertScore rest k v

/-- src/core/runtime.py `_collect_scores_for_numbers`: number → score,
keeping ints, coercing digit strings, keeping `"x"/"X"` as the failure
marker and dropping any other string. -/
def _collect_scores_for_numbers (results : List Result) : List (Int × CollectedScore) :=
  results.foldl
    (fun mp r =>
      match r.score with
      | .int n => upsertScore mp r.number (.num n)
      | .str s =>
        if !s.data.isEmpty && s.data.all Char.isDigit then
          upsertScore mp r.number (.num (digitsToNat s.data))
        else if s.data.map Char.toUpper = ['X'] then
          upsertScore mp r.number .failX
        else mp)
    []

/-- The ASCII token of a collected score (runtime.py 498):
`"X" if score.upper() == "X" else str(int(score))`. -/
def scoreTokenAscii (sc : CollectedScore) : String :=
  match sc with
  | .num n => Int.repr n
  | .failX => "X"

/-- Python `str.ljust`. -/
def ljustStr (s : String) (w : Nat) : String :=
  s ++ String.mk (List.replicate (w - s.length) ' ')

/-- runtime.py 395-402: the per-month `date -> puzzle number` dict,
filled only for in-month dates, each mapped through `date_to_num` at
noon in the render timezone (`tzOff` seconds east of UTC). -/
def month_day_to_num (cfg : DatesConfig) (localOff nowUtc tzOff : Int)
    (y m : Int) (d : Int) : Option Int :=
  if toOrdinal y m 1 ≤ d ∧ d < toOrdinal y m 1 + daysInMonth y m then
    some (date_to_num cfg localOff nowUtc (some (.aware (d * 86400 + 43200 - tzOff))))
  else none

/-- One calendar cell of the ASCII branch (runtime.py 484-500): blank
for a day outside the target month, blank for a day strictly after the
end instant's date, the missed marker when the mapped puzzle number has
no recorded score, else the score token left-padded to width 2. -/
def cell_ascii (firstOrd days today : Int) (numOf : Int → Option Int)
    (smap : List (Int × CollectedScore)) (d : Int) : String :=
  if ¬(firstOrd ≤ d ∧ d < firstOrd + days) then "  "
  else if d > today then "  "
  else
    match (numOf d).bind (fun n => smap.lookup n) with
    | none => "· "
    | some sc => ljustStr (scoreTokenAscii sc) 2

/-- `len("Mo Tu We Th Fr Sa Su")`. -/
def blockWidth : Nat := 20

/-- runtime.py 506-507: pad a week block to the header width. -/
def padBlock (s : String) : String :=
  if s.length < blockWidth then s ++ String.mk (List.replicate (blockWidth - s.length) ' ')
  else s

/-- runtime.py 501-503: top up a week to 7 cells and join with spaces. -/
def weekBlockAscii (cellOf : Int → String) (week : List Int) : String :=
  padBlock (String.intercalate " "
    (week.map cellOf ++ List.replicate (7 - (week.map cellOf).length) "  "))

/-- `calendar.month_name[m]`. -/
def monthName (m : Int) : String :=
  if m = 1 then "January" else if m = 2 then "February"
  else if m = 3 then "March" else if m = 4 then "April"
  else if m = 5 then "May" else if m = 6 then "June"
  else if m = 7 then "July" else if m = 8 then "August"
  else if m = 9 then "September" else if m = 10 then "October"
  else if m = 11 then "November" else "December"

/-- Python `str.center` (up to its one-space bias on odd margins, which
affects only the cosmetic title line). -/
def centerStr (s : String) (w : Nat) : String :=
  if w ≤ s.length then s
  else
    String.mk (List.replicate ((w - s.length) / 2) ' ') ++ s ++
      String.mk (List.replicate ((w - s.length) - (w - s.length) / 2) ' ')

/-- runtime.py 409-413 month titles row. -/
def month_titles_line (months : List (Int × Int)) : String :=
  String.intercalate "  "
    (months.map (fun p => centerStr (monthName p.2 ++ " " ++ Int.repr p.1) blockWidth))

/-- runtime.py 414 weekday headers row. -/
def week_headers_line (n : Nat) : String :=
  String.intercalate "  " (List.replicate n "Mo Tu We Th Fr Sa Su")

/-- The per-user text block of `send_last_n_month_calendars` in ASCII
mode: title line, weekday header line, then one line per week row, each
month contributing a 20-column block (shorter months padded with blank
blocks).  `(endY, endM, endD)` is the end instant's calendar date in the
render timezone (`now_dt.date()`); `n_months` is clamped to 1..12. -/
def render_user_lines (cfg : DatesConfig) (localOff nowUtc tzOff : Int)
    (n_months : Int) (endY endM endD : Int) (results : List Result) : List String :=
  let n : Nat := (max 1 (min 12 n_months)).toNat
  let today := toOrdinal endY endM endD
  let months := monthsList endY endM n
  let per_month_weeks := months.map (fun p => monthWeeks p.1 p.2)
  let smap := _collect_scores_for_numbers results
  let max_weeks := (per_month_weeks.map List.length).foldr max 0
  let rows := (List.range max_weeks).map (fun wi =>
    String.intercalate "  "
      ((months.zip per_month_weeks).map (fun pw =>
        match pw.2.get? wi with
        | none => String.mk (List.replicate blockWidth ' ')
        | some week =>
          weekBlockAscii
            (cell_ascii (toOrdinal pw.1.1 pw.1.2 1) (daysInMonth pw.1.1 pw.1.2) today
              (month_day_to_num cfg localOff nowUtc tzOff pw.1.1 pw.1.2) smap)
            week)))
  month_titles_line months :: week_headers_line n :: rows

/-- Numbering epoch at Sep 1 2025 for the C9 example (so Sep d maps to
puzzle number d - 1). -/
def c9cfg : DatesConfig := { epoch_date := toOrdinal 2025 9 1 }

/-- C9 example timeline: a score 3 at number 4 (Sep 5) and a failure at
number 2 (Sep 3). -/
def c9res : List Result :=
  [⟨4, .int 3, .naive 0, []⟩, ⟨2, .str "X", .naive 0, []⟩]

/-- C9: each calendar cell is blank when its day falls outside the
target month or strictly after the end instant's local date, shows the
missed marker when the day's mapped puzzle number has no recorded
score, and otherwise shows the score token; and for `monthCount = 1` on
September 2025 (whose Monday-first grid has exactly 5 week rows) with
end date Sep 20, the renderer emits exactly 5 non-header lines, one per
week row in Monday-first order, each 20 columns wide with one 2-column
cell per day, and every day strictly after Sep 20 renders blank. -/
theorem C9_calendar_cells_and_grid :
    (∀ (firstOrd days today : Int) (numOf : Int → Option Int)
        (smap : List (Int × CollectedScore)) (d : Int),
      (¬(firstOrd ≤ d ∧ d < firstOrd + days) →
        cell_ascii firstOrd days today numOf smap d = "  ") ∧
      (firstOrd ≤ d ∧ d < firstOrd + days → d > today →
        cell_ascii firstOrd days today numOf smap d = "  ") ∧
      (firstOrd ≤ d ∧ d < firstOrd + days → ¬(d > today) →
        (numOf d).bind (fun n => smap.lookup n) = none →
        cell_ascii firstOrd days today numOf smap d = "· ") ∧
      (∀ sc : CollectedScore, firstOrd ≤ d ∧ d < firstOrd + days → ¬(d > today) →
        (numOf d).bind (fun n => smap.lookup n) = some sc →
        cell_ascii firstOrd days today numOf smap d =
          ljustStr (scoreTokenAscii sc) 2)) ∧
    (render_user_lines c9cfg 0 0 0 1 2025 9 20 c9res).length =
      2 + (monthWeeks 2025 9).length ∧
    (monthWeeks 2025 9).length = 5 ∧
    (render_user_lines c9cfg 0 0 0 1 2025 9 20 c9res).drop 2 =
      (monthWeeks 2025 9).map
        (weekBlockAscii
          (cell_ascii (toOrdinal 2025 9 1) (daysInMonth 2025 9) (toOrdinal 2025 9 20)
            (month_day_to_num c9cfg 0 0 0 2025 9) (_collect_scores_for_numbers c9res))) ∧
    ((render_user_lines c9cfg 0 0 0 1 2025 9 20 c9res).drop 2).map String.length =
      [20, 20, 20, 20, 20] ∧
    cell_ascii (toOrdinal 2025 9 1) (daysInMonth 2025 9) (toOrdinal 2025 9 20)
      (month_day_to_num c9cfg 0 0 0 2025 9) (_collect_scores_for_numbers c9res)
      (toOrdinal 2025 9 25) = "  " := by
  refine ⟨?_, by decide, by decide, by decide, by decide, by decide⟩
  intro firstOrd days today numOf smap d
  refine ⟨?_, ?_, ?_, ?_⟩
  · intro h
    simp only [cell_ascii]
    rw [if_pos h]
  · intro h1 h2
    simp only [cell_ascii]
    rw [if_neg (not_not_intro h1), if_pos h2]
  · intro h1 h2 h3
    simp only [cell_ascii]
    rw [if_neg (not_not_intro h1), if_neg h2, h3]
  · intro sc h1 h2 h3
    simp only [cell_ascii]
    rw [if_neg (not_not_intro h1), if_neg h2, h3]

/-- Closed instantiation of `C9_calendar_cells_and_grid`: an
out-of-month day renders blank and an unscored in-month past day
renders the missed marker. -/
theorem C9_calendar_cells_and_grid_witness :
    cell_ascii 10 30 100 (fun _ => none) [] 0 = "  " ∧
    cell_ascii 10 30 100 (fun _ => some 5) [] 15 = "· " :=
  ⟨(C9_calendar_cells_and_grid.1 10 30 100 (fun _ => none) [] 0).1 (by omega),
   (C9_calendar_cells_and_grid.1 10 30 100 (fun _ => some 5) [] 15).2.2.1
     (by omega) (by omega) rfl⟩
